import Mathlib

/-!
Verification of the indexatron extraction pipeline.

This file is a shallow embedding of the core components of the repository:
the Response Normalizer (`PhotoAnalyzer._parse_response` / `_fix_json` in
`src/indexatron/analyzer.py`), the Record Builder (`_build_analysis`), the
Embedding Composer (`TextEmbedder.embed_analysis` in `embedder.py`), the
embedder (`TextEmbedder.embed`), and the Batch Orchestrator
(`BatchProcessor` in `processor.py`).

JSON values are modelled by the inductive type `JsonVal`; Python's
`json.loads` is modelled by a fuel-based recursive-descent parser
(`json_loads`) following the strict JSON grammar that the Python `json`
module implements (object/array/string/number/true/false/null, plus the
extended literals NaN and Infinity that Python accepts; numbers are kept
as their lexemes).  Fallible Python code (TypeError on iterating a
non-iterable, pydantic validation errors) is modelled with `Except`.
-/

set_option maxRecDepth 10000

/-- A JSON value as produced by Python's `json.loads`.  Objects keep
insertion order, like Python dicts; numbers keep their source lexeme. -/
inductive JsonVal where
  | null : JsonVal
  | bool (b : Bool) : JsonVal
  | num (lexeme : String) : JsonVal
  | str (s : String) : JsonVal
  | arr (elems : List JsonVal) : JsonVal
  | obj (fields : List (String × JsonVal)) : JsonVal
deriving Repr

/-- Whether a value is a Python dict (JSON object); models `isinstance(x, dict)`. -/
def JsonVal.isObj : JsonVal → Bool
  | .obj _ => true
  | _ => false

/-- Whether a value is a Python list (JSON array); models `isinstance(x, list)`. -/
def JsonVal.isList : JsonVal → Bool
  | .arr _ => true
  | _ => false

/-- Lookup of a key in an object; models `d.get(k)` returning `None`
translated to `Option` (so an explicit JSON `null` value is
distinguished from an absent key).  On non-objects it returns `none`. -/
def JsonVal.getKey : JsonVal → String → Option JsonVal
  | .obj kvs, k => (kvs.find? (fun kv => kv.1 = k)).map (fun kv => kv.2)
  | _, _ => none

/-- Lookup with default on a field list; models Python `d.get(k, dflt)`:
the default is used only when the key is absent. -/
def getD (kvs : List (String × JsonVal)) (k : String) (dflt : JsonVal) : JsonVal :=
  ((kvs.find? (fun kv => kv.1 = k)).map (fun kv => kv.2)).getD dflt

/-- Lookup on a field list returning `Option`; models Python `d.get(k)`. -/
def getOpt (kvs : List (String × JsonVal)) (k : String) : Option JsonVal :=
  (kvs.find? (fun kv => kv.1 = k)).map (fun kv => kv.2)

/-- Whether a JSON number lexeme denotes zero: its mantissa (the part
before any exponent) has no nonzero digit.  Used for Python truthiness. -/
def numLexemeIsZero (lex : String) : Bool :=
  (lex.data.takeWhile (fun c => c ≠ 'e' && c ≠ 'E')).all
    (fun c => c = '0' || c = '-' || c = '+' || c = '.')

/-- Python truthiness of a JSON value: `None`, `False`, `0`, `""`, `[]`
and `\x7b\x7d` are falsy, everything else truthy. -/
def pyTruthy : JsonVal → Bool
  | .null => false
  | .bool b => b
  | .num lex => !(numLexemeIsZero lex)
  | .str s => s ≠ ""
  | .arr l => !l.isEmpty
  | .obj kvs => !kvs.isEmpty

mutual

/-- Python `repr` of a JSON value (exact for values whose strings contain
no quotes or escapes, which is all this development evaluates it on). -/
def pyRepr : JsonVal → String
  | .null => "None"
  | .bool true => "True"
  | .bool false => "False"
  | .num lex => lex
  | .str s => "'" ++ s ++ "'"
  | .arr l => "[" ++ String.intercalate ", " (pyReprList l) ++ "]"
  | .obj kvs => "\x7b" ++ String.intercalate ", " (pyReprFields kvs) ++ "\x7d"

/-- `repr` of each element of a Python list. -/
def pyReprList : List JsonVal → List String
  | [] => []
  | v :: vs => pyRepr v :: pyReprList vs

/-- `repr` of each `key: value` entry of a Python dict. -/
def pyReprFields : List (String × JsonVal) → List String
  | [] => []
  | (k, v) :: kvs => ("'" ++ k ++ "': " ++ pyRepr v) :: pyReprFields kvs

end

/-- Python `str()` of a JSON value (`str` of a string is the string
itself; containers fall back to `repr`). -/
def pyStr : JsonVal → String
  | .str s => s
  | v => pyRepr v

-- ------------------------------------------------------------------
-- A model of Python's `json.loads` (strict JSON recursive descent).
-- ------------------------------------------------------------------

/-- JSON whitespace characters skipped between tokens by `json.loads`. -/
def isJsonWs (c : Char) : Bool :=
  c = ' ' || c = '\t' || c = '\n' || c = '\r'

/-- Drop leading JSON whitespace. -/
def skipWs : List Char → List Char
  | [] => []
  | c :: cs => if isJsonWs c then skipWs cs else c :: cs

/-- Whether `pat` is an initial segment of `cs`. -/
def startsWithL : List Char → List Char → Bool
  | [], _ => true
  | _ :: _, [] => false
  | p :: ps, c :: cs => p = c && startsWithL ps cs

/-- Whether a character is a hexadecimal digit. -/
def isHexDigitC (c : Char) : Bool :=
  c.isDigit || ('a' ≤ c && c ≤ 'f') || ('A' ≤ c && c ≤ 'F')

/-- Numeric value of a hexadecimal digit character. -/
def hexVal (c : Char) : Nat :=
  if c.isDigit then c.toNat - 48
  else if 'a' ≤ c && c ≤ 'f' then c.toNat - 87
  else c.toNat - 55

/-- Parse the body of a JSON string after the opening quote, handling
the escape sequences of the JSON grammar; rejects unescaped control
characters as Python's strict mode does (surrogate-pair recombination
for `\u` escapes is not modelled; no input in this development uses it). -/
def parseStringBody (acc : List Char) : List Char → Option (String × List Char)
  | '"' :: rest => some (String.mk acc.reverse, rest)
  | '\\' :: rest =>
      match rest with
      | '"' :: rest' => parseStringBody ('"' :: acc) rest'
      | '\\' :: rest' => parseStringBody ('\\' :: acc) rest'
      | '/' :: rest' => parseStringBody ('/' :: acc) rest'
      | 'b' :: rest' => parseStringBody ('\x08' :: acc) rest'
      | 'f' :: rest' => parseStringBody ('\x0c' :: acc) rest'
      | 'n' :: rest' => parseStringBody ('\n' :: acc) rest'
      | 'r' :: rest' => parseStringBody ('\r' :: acc) rest'
      | 't' :: rest' => parseStringBody ('\t' :: acc) rest'
      | 'u' :: h1 :: h2 :: h3 :: h4 :: rest' =>
          if isHexDigitC h1 && isHexDigitC h2 && isHexDigitC h3 && isHexDigitC h4 then
            parseStringBody
              (Char.ofNat (4096 * hexVal h1 + 256 * hexVal h2 + 16 * hexVal h3 + hexVal h4)
                :: acc) rest'
          else none
      | _ => none
  | c :: rest => if c.toNat < 32 then none else parseStringBody (c :: acc) rest
  | [] => none

/-- Parse the integer-part digits after an initial nonzero digit. -/
def takeDigits : List Char → (List Char × List Char)
  | c :: cs =>
      if c.isDigit then
        let (ds, rest) := takeDigits cs
        (c :: ds, rest)
      else ([], c :: cs)
  | [] => ([], [])

/-- Parse a JSON number per the strict grammar
`-? (0 | [1-9][0-9]*) (. [0-9]+)? ([eE] [-+]? [0-9]+)?`, returning its
lexeme; the extended literals `NaN`, `Infinity`, `-Infinity` that
Python's `json.loads` also accepts are handled by the caller. -/
def parseNumber (cs : List Char) : Option (String × List Char) :=
  let (sign, cs1) :=
    match cs with
    | '-' :: rest => (['-'], rest)
    | _ => (([] : List Char), cs)
  match cs1 with
  | c :: rest =>
      if c = '0' || (c.isDigit && c ≠ '0') then
        let (intDs, cs2) := if c = '0' then (([] : List Char), rest) else takeDigits rest
        let intPart := c :: intDs
        let (fracPart, cs3) :=
          match cs2 with
          | '.' :: d :: rest' =>
              if d.isDigit then
                let (ds, rest2) := takeDigits rest'
                ('.' :: d :: ds, rest2)
              else (([] : List Char), cs2)
          | _ => (([] : List Char), cs2)
        let (expPart, cs4) :=
          match cs3 with
          | e :: rest' =>
              if e = 'e' || e = 'E' then
                match rest' with
                | s :: d :: rest2 =>
                    if (s = '+' || s = '-') && d.isDigit then
                      let (ds, rest3) := takeDigits rest2
                      (e :: s :: d :: ds, rest3)
                    else if s.isDigit then
                      let (ds, rest3) := takeDigits rest2
                      (e :: s :: (if d.isDigit then d :: ds else ds),
                       if d.isDigit then rest3 else d :: rest2)
                    else (([] : List Char), cs3)
                | [s] => if s.isDigit then ([e, s], ([] : List Char)) else (([] : List Char), cs3)
                | [] => (([] : List Char), cs3)
              else (([] : List Char), cs3)
          | [] => (([] : List Char), cs3)
        some (String.mk (sign ++ intPart ++ fracPart ++ expPart), cs4)
      else none
  | [] => none

/-- Insert a parsed member into an object under construction; models
`d[key] = value` on a Python dict: a duplicate key replaces the value
in place, a fresh key is appended. -/
def fieldsInsert (kvs : List (String × JsonVal)) (k : String) (v : JsonVal) :
    List (String × JsonVal) :=
  if (kvs.find? (fun kv => kv.1 = k)).isSome then
    kvs.map (fun kv => if kv.1 = k then (k, v) else kv)
  else kvs ++ [(k, v)]

/-- The mode of the JSON scanner: a value, the members of an object
under construction, or the elements of an array under construction. -/
inductive PMode where
  | value : PMode
  | members (acc : List (String × JsonVal)) : PMode
  | elements (acc : List JsonVal) : PMode

/-- The JSON scanner, one function so that recursion is structural on
the fuel.  In `value` mode it parses one JSON value starting at the
first character (no leading whitespace), modelling the dispatch of
Python's scanner; in `members` mode it parses `key : value` pairs up to
the closing brace, returning the finished object; in `elements` mode it
parses values up to the closing bracket, returning the finished array. -/
def parseRun : Nat → PMode → List Char → Option (JsonVal × List Char)
  | 0, _, _ => none
  | fuel + 1, PMode.value, cs =>
      match cs with
      | [] => none
      | '"' :: rest => (parseStringBody [] rest).map (fun p => (JsonVal.str p.1, p.2))
      | '{' :: rest =>
          match skipWs rest with
          | '}' :: rest2 => some (JsonVal.obj [], rest2)
          | cs2 => parseRun fuel (PMode.members []) cs2
      | '[' :: rest =>
          match skipWs rest with
          | ']' :: rest2 => some (JsonVal.arr [], rest2)
          | cs2 => parseRun fuel (PMode.elements []) cs2
      | 't' :: rest =>
          if startsWithL ['r', 'u', 'e'] rest then some (JsonVal.bool true, rest.drop 3)
          else none
      | 'f' :: rest =>
          if startsWithL ['a', 'l', 's', 'e'] rest then some (JsonVal.bool false, rest.drop 4)
          else none
      | 'n' :: rest =>
          if startsWithL ['u', 'l', 'l'] rest then some (JsonVal.null, rest.drop 3)
          else none
      | 'N' :: rest =>
          if startsWithL ['a', 'N'] rest then some (JsonVal.num "NaN", rest.drop 2)
          else none
      | 'I' :: rest =>
          if startsWithL ['n', 'f', 'i', 'n', 'i', 't', 'y'] rest then
            some (JsonVal.num "Infinity", rest.drop 7)
          else none
      | '-' :: rest =>
          if startsWithL ['I', 'n', 'f', 'i', 'n', 'i', 't', 'y'] rest then
            some (JsonVal.num "-Infinity", rest.drop 8)
          else (parseNumber ('-' :: rest)).map (fun p => (JsonVal.num p.1, p.2))
      | c :: rest => (parseNumber (c :: rest)).map (fun p => (JsonVal.num p.1, p.2))
  | fuel + 1, PMode.members acc, cs =>
      match cs with
      | '"' :: rest =>
          match parseStringBody [] rest with
          | none => none
          | some (key, rest1) =>
              match skipWs rest1 with
              | ':' :: rest2 =>
                  match parseRun fuel PMode.value (skipWs rest2) with
                  | none => none
                  | some (v, rest3) =>
                      match skipWs rest3 with
                      | ',' :: rest4 =>
                          parseRun fuel (PMode.members (fieldsInsert acc key v)) (skipWs rest4)
                      | '}' :: rest4 => some (JsonVal.obj (fieldsInsert acc key v), rest4)
                      | _ => none
              | _ => none
      | _ => none
  | fuel + 1, PMode.elements acc, cs =>
      match parseRun fuel PMode.value cs with
      | none => none
      | some (v, rest) =>
          match skipWs rest with
          | ',' :: rest2 => parseRun fuel (PMode.elements (acc ++ [v])) (skipWs rest2)
          | ']' :: rest2 => some (JsonVal.arr (acc ++ [v]), rest2)
          | _ => none

/-- Parse one JSON value: the scanner in `value` mode. -/
def parseValue (fuel : Nat) (cs : List Char) : Option (JsonVal × List Char) :=
  parseRun fuel PMode.value cs

/-- Model of Python's `json.loads`: skip leading whitespace, parse one
value, require only whitespace afterwards.  The fuel exceeds the
maximal recursion depth, since at least one character is consumed every
two nested calls. -/
def json_loads (s : String) : Option JsonVal :=
  match parseValue (2 * s.length + 4) (skipWs s.data) with
  | some (v, rest) => if (skipWs rest).isEmpty then some v else none
  | none => none

-- ------------------------------------------------------------------
-- The Response Normalizer: PhotoAnalyzer._fix_json / _parse_response.
-- ------------------------------------------------------------------

/-- The character scan of `_fix_json`: walk the string keeping a running
brace count and bracket count, recording the offset just past the last
position where the brace count returns to zero. -/
def fixScan : List Char → Int → Int → Nat → Nat → (Int × Nat)
  | [], brace, _, _, lastValid => (brace, lastValid)
  | c :: cs, brace, bracket, i, lastValid =>
      if c = '{' then fixScan cs (brace + 1) bracket (i + 1) lastValid
      else if c = '}' then
        if brace - 1 = 0 then fixScan cs (brace - 1) bracket (i + 1) (i + 1)
        else fixScan cs (brace - 1) bracket (i + 1) lastValid
      else if c = '[' then fixScan cs brace (bracket + 1) (i + 1) lastValid
      else if c = ']' then fixScan cs brace (bracket - 1) (i + 1) lastValid
      else fixScan cs brace bracket (i + 1) lastValid

/-- Python `s.rstrip(",\n ")`: drop trailing commas, newlines and spaces. -/
def rstripCommaNlSpace (cs : List Char) : List Char :=
  (cs.reverse.dropWhile (fun c => c = ',' || c = '\n' || c = ' ')).reverse

/-- Model of `PhotoAnalyzer._fix_json`: if the brace count is positive at
end of string, truncate to the last complete top-level object (when one
was seen), strip trailing commas/newlines/spaces, and append one closing
brace per outstanding open brace; otherwise return the input unchanged. -/
def fix_json (s : String) : String :=
  let scan := fixScan s.data 0 0 0 0
  if scan.1 > 0 then
    let truncated := if scan.2 > 0 then s.data.take scan.2 else s.data
    String.mk (rstripCommaNlSpace truncated ++ List.replicate scan.1.toNat '}')
  else s

/-- Three backticks, the fence delimiter of the markdown code-block regex. -/
def fenceMark : List Char := "```".data

/-- The optional `json` tag after an opening fence. -/
def jsonTag : List Char := "json".data

/-- Drop everything up to and including the first occurrence of `pat`;
`none` when `pat` does not occur. -/
def dropToSub (pat : List Char) : List Char → Option (List Char)
  | [] => if startsWithL pat [] then some [] else none
  | c :: cs =>
      if startsWithL pat (c :: cs) then some ((c :: cs).drop pat.length)
      else dropToSub pat cs

/-- The segment strictly before the first occurrence of `pat`; `none`
when `pat` does not occur. -/
def upToSub (pat : List Char) : List Char → Option (List Char)
  | [] => if startsWithL pat [] then some [] else none
  | c :: cs =>
      if startsWithL pat (c :: cs) then some []
      else (upToSub pat cs).map (fun l => c :: l)

/-- Whitespace stripped by Python `str.strip()` (ASCII part, which also
covers the regex class `\s` on the inputs of this development). -/
def isPyWs (c : Char) : Bool :=
  c = ' ' || c = '\t' || c = '\n' || c = '\r' || c = '\x0c' || c = '\x0b'

/-- Python `str.strip()`: drop leading and trailing whitespace. -/
def stripStr (cs : List Char) : List Char :=
  ((cs.dropWhile isPyWs).reverse.dropWhile isPyWs).reverse

/-- Model of the fenced-code-block search of `_parse_response`, i.e.
`re.search` of three backticks, an optional `json` tag, lazy content,
then three closing backticks — composed with the `.strip()` the code
applies to the captured group.  The leftmost-match/lazy-quantifier
semantics reduce to: content between the first fence (after an optional
`json` tag) and the next fence, whitespace-stripped; no match when no
closing fence follows the first opening fence. -/
def extractFenced (s : String) : Option String :=
  match dropToSub fenceMark s.data with
  | none => none
  | some rest =>
      let rest2 := if startsWithL jsonTag rest then rest.drop 4 else rest
      match upToSub fenceMark rest2 with
      | none => none
      | some content => some (String.mk (stripStr content))

/-- Model of the greedy-span search of `_parse_response`, i.e.
`re.search` of a brace-to-brace span: the segment from the first opening
brace through the last closing brace, when the first `\x7b` precedes the
last `\x7d`. -/
def braceSpan (s : String) : Option String :=
  let fromBrace := s.data.dropWhile (fun c => c ≠ '{')
  let trimmed := (fromBrace.reverse.dropWhile (fun c => c ≠ '}')).reverse
  if trimmed.isEmpty then none else some (String.mk trimmed)

/-- The fallback dictionary returned when every parse attempt fails. -/
def fallbackDict (response : String) : JsonVal :=
  JsonVal.obj [("description", JsonVal.str response), ("parse_error", JsonVal.bool true)]

/-- Steps 4 and 5 of `_parse_response`: try the greedy brace span, fall
back to the fallback dictionary. -/
def spanParse (response : String) : JsonVal :=
  match braceSpan response with
  | some span =>
      match json_loads span with
      | some v => v
      | none => fallbackDict response
  | none => fallbackDict response

/-- Model of `PhotoAnalyzer._parse_response`: direct parse, then fenced
block (with brace-balance repair on failure), then greedy brace span,
then the fallback dictionary.  Total by construction, which models the
method never raising. -/
def parse_response (response : String) : JsonVal :=
  match json_loads response with
  | some v => v
  | none =>
      match extractFenced response with
      | some jsonStr =>
          match json_loads jsonStr with
          | some v => v
          | none =>
              match json_loads (fix_json jsonStr) with
              | some v => v
              | none => spanParse response
      | none => spanParse response

-- ------------------------------------------------------------------
-- The Record Builder: PhotoAnalyzer._build_analysis and the pydantic
-- models of models.py.
-- ------------------------------------------------------------------

/-- The `LocationInfo` pydantic model. -/
structure LocationInfo where
  setting : String
  type : String
  specific : Option String
deriving Repr, DecidableEq

/-- The `PersonInfo` pydantic model. -/
structure PersonInfo where
  description : String
  estimated_age : Option String
  position : Option String
deriving Repr, DecidableEq

/-- The `EraEstimate` pydantic model. -/
structure EraEstimate where
  decade : String
  confidence : String
  reasoning : Option String
deriving Repr, DecidableEq

/-- The `PhotoAnalysis` pydantic model (the construction-time timestamp
is not modelled; `model_used` keeps its default). -/
structure PhotoAnalysis where
  filename : String
  model_used : String
  description : String
  location : Option LocationInfo
  people : List PersonInfo
  categories : List String
  era : Option EraEstimate
  mood : Option String
  colors : List String
  objects : List String
  raw_response : Option String
deriving Repr, DecidableEq

/-- Pydantic v2 validation of a `str` field: only a string is accepted
(no coercion from numbers, booleans or `None`). -/
def asStr : JsonVal → Except String String
  | .str s => .ok s
  | _ => .error "ValidationError: str expected"

/-- Pydantic v2 validation of an `Optional[str]` field. -/
def asOptStr : JsonVal → Except String (Option String)
  | .null => .ok none
  | .str s => .ok (some s)
  | _ => .error "ValidationError: str or None expected"

/-- Pydantic v2 validation of a `list[str]` field. -/
def asStrList (l : List JsonVal) : Except String (List String) :=
  l.mapM asStr

/-- Python `for x in v`: lists yield their elements, strings their
characters, dicts their keys; `None`, booleans and numbers raise
`TypeError`. -/
def pyIter : JsonVal → Except String (List JsonVal)
  | .arr l => .ok l
  | .str s => .ok (s.data.map (fun c => JsonVal.str (String.mk [c])))
  | .obj kvs => .ok (kvs.map (fun kv => JsonVal.str kv.1))
  | .null => .error "TypeError: NoneType object is not iterable"
  | .bool _ => .error "TypeError: bool object is not iterable"
  | .num _ => .error "TypeError: number object is not iterable"

/-- The `location` parse of `_build_analysis`: built only when the key
is present, truthy and a dict; fields validated as strings. -/
def buildLocation (data : List (String × JsonVal)) : Except String (Option LocationInfo) :=
  match getOpt data "location" with
  | none => .ok none
  | some v =>
      if pyTruthy v then
        match v with
        | .obj kvs => do
            let setting ← asStr (getD kvs "setting" (JsonVal.str "unknown"))
            let ty ← asStr (getD kvs "type" (JsonVal.str "unknown"))
            let specific ← asOptStr (getD kvs "specific" JsonVal.null)
            return some ⟨setting, ty, specific⟩
        | _ => .ok none
      else .ok none

/-- Construction of one `PersonInfo` from a dict entry of `people`. -/
def buildPerson (kvs : List (String × JsonVal)) : Except String PersonInfo := do
  let d ← asStr (getD kvs "description" (JsonVal.str "person"))
  let age ← asOptStr (getD kvs "estimated_age" JsonVal.null)
  let pos ← asOptStr (getD kvs "position" JsonVal.null)
  return ⟨d, age, pos⟩

/-- The body of the `people` loop: dict entries are converted (possibly
raising a validation error), other entries are silently dropped. -/
def buildPeopleLoop : List JsonVal → Except String (List PersonInfo)
  | [] => .ok []
  | v :: rest =>
      match v with
      | .obj kvs => do
          let p ← buildPerson kvs
          let ps ← buildPeopleLoop rest
          return p :: ps
      | _ => buildPeopleLoop rest

/-- The `people` loop of `_build_analysis`: iterate the raw value
(raising on non-iterables), keep only dict entries. -/
def buildPeople (data : List (String × JsonVal)) : Except String (List PersonInfo) := do
  let items ← pyIter (getD data "people" (JsonVal.arr []))
  buildPeopleLoop items

/-- The `era` parse of `_build_analysis`, with the same dict guard as
`location`. -/
def buildEra (data : List (String × JsonVal)) : Except String (Option EraEstimate) :=
  match getOpt data "era" with
  | none => .ok none
  | some v =>
      if pyTruthy v then
        match v with
        | .obj kvs => do
            let decade ← asStr (getD kvs "decade" (JsonVal.str "unknown"))
            let confidence ← asStr (getD kvs "confidence" (JsonVal.str "low"))
            let reasoning ← asOptStr (getD kvs "reasoning" JsonVal.null)
            return some ⟨decade, confidence, reasoning⟩
        | _ => .ok none
      else .ok none

/-- The dict branch of the `objects` handling: flatten all values into
one list, extending with stringified elements for list values and
appending the stringified value otherwise. -/
def flattenDictLoop : List (String × JsonVal) → List JsonVal
  | [] => []
  | (_, v) :: rest =>
      (match v with
       | .arr l => l.map (fun x => JsonVal.str (pyStr x))
       | w => [JsonVal.str (pyStr w)]) ++ flattenDictLoop rest

/-- For a dict element of an `objects` list:
`obj.get("description", obj.get("name", str(obj)))`. -/
def objFallbackStr (okvs : List (String × JsonVal)) : JsonVal :=
  match getOpt okvs "description" with
  | some v => v
  | none =>
      match getOpt okvs "name" with
      | some v => v
      | none => JsonVal.str (pyStr (JsonVal.obj okvs))

/-- The raw `objects` list built by `_build_analysis` before the final
model validation: dicts are flattened, lists converted element-wise
(preferring `description`/`name` for dict elements), anything else
yields the initial empty list. -/
def buildObjectsRaw (data : List (String × JsonVal)) : List JsonVal :=
  match getD data "objects" (JsonVal.arr []) with
  | .obj kvs => flattenDictLoop kvs
  | .arr l =>
      l.map (fun o =>
        match o with
        | .obj okvs => objFallbackStr okvs
        | v => JsonVal.str (pyStr v))
  | _ => []

/-- The `colors`/`categories` coercion: a dict contributes its values,
a list is kept, anything else becomes the empty list (the composition
of the dict branch with the final `isinstance(x, list)` guard). -/
def coerceListOrDict : JsonVal → List JsonVal
  | .obj kvs => kvs.map (fun kv => kv.2)
  | .arr l => l
  | _ => []

/-- Model of `PhotoAnalyzer._build_analysis` followed by the
`PhotoAnalysis` pydantic validation.  `Except.error` models the two ways
the Python code can raise: a `TypeError` from iterating a non-iterable
`people` value, and a pydantic `ValidationError` from a non-string value
reaching a string-typed field. -/
def build_analysis (filename : String) (data : List (String × JsonVal))
    (raw_response : String) : Except String PhotoAnalysis := do
  let location ← buildLocation data
  let people ← buildPeople data
  let era ← buildEra data
  let objectsRaw := buildObjectsRaw data
  let description ← asStr (getD data "description" (JsonVal.str "No description available"))
  let mood ← asOptStr (getD data "mood" JsonVal.null)
  let categories ← asStrList (coerceListOrDict (getD data "categories" (JsonVal.arr [])))
  let colors ← asStrList (coerceListOrDict (getD data "colors" (JsonVal.arr [])))
  let objects ← asStrList objectsRaw
  return ⟨filename, "llava:7b", description, location, people, categories, era, mood,
          colors, objects, some raw_response⟩

/-- Whether a value passes `str` field validation. -/
def strOk : JsonVal → Bool
  | .str _ => true
  | _ => false

/-- Whether a value passes `Optional[str]` field validation. -/
def optStrOk : JsonVal → Bool
  | .null => true
  | .str _ => true
  | _ => false

/-- Well-typedness of a truthy `location`/`era`-style dict under the
given defaults. -/
def guardedDictOk (kvs : List (String × JsonVal)) (k1 d1 k2 d2 k3 : String) : Bool :=
  strOk (getD kvs k1 (JsonVal.str d1)) && strOk (getD kvs k2 (JsonVal.str d2)) &&
    optStrOk (getD kvs k3 JsonVal.null)

/-- Well-typedness of the `location` value: anything that is not a
truthy dict is tolerated (skipped by the builder); a truthy dict needs
string-typed fields. -/
def locationWF (data : List (String × JsonVal)) : Bool :=
  match getOpt data "location" with
  | none => true
  | some v =>
      if pyTruthy v then
        match v with
        | .obj kvs => guardedDictOk kvs "setting" "unknown" "type" "unknown" "specific"
        | _ => true
      else true

/-- Well-typedness of one entry of the `people` iteration: non-dict
entries are dropped by the builder, dict entries need string fields. -/
def personEntryOk : JsonVal → Bool
  | .obj kvs =>
      strOk (getD kvs "description" (JsonVal.str "person")) &&
        optStrOk (getD kvs "estimated_age" JsonVal.null) &&
        optStrOk (getD kvs "position" JsonVal.null)
  | _ => true

/-- Well-typedness of the `people` value: it must be iterable and its
dict entries must be well-typed. -/
def peopleWF (data : List (String × JsonVal)) : Bool :=
  match pyIter (getD data "people" (JsonVal.arr [])) with
  | .error _ => false
  | .ok items => items.all personEntryOk

/-- Well-typedness of the `era` value, like `locationWF`. -/
def eraWF (data : List (String × JsonVal)) : Bool :=
  match getOpt data "era" with
  | none => true
  | some v =>
      if pyTruthy v then
        match v with
        | .obj kvs => guardedDictOk kvs "decade" "unknown" "confidence" "low" "reasoning"
        | _ => true
      else true

/-- Well-typedness of one element of an `objects` list: dict elements
must carry a string under `description`/`name` (or neither key, which
falls back to stringification); all other elements are stringified. -/
def objElemOk : JsonVal → Bool
  | .obj okvs => strOk (objFallbackStr okvs)
  | _ => true

/-- Well-typedness of the `objects` value: dicts always flatten to
strings; lists need well-typed elements; any other shape is dropped. -/
def objectsWF (data : List (String × JsonVal)) : Bool :=
  match getD data "objects" (JsonVal.arr []) with
  | .arr l => l.all objElemOk
  | _ => true

/-- Well-typedness of a `colors`/`categories` value after coercion. -/
def strListWF (v : JsonVal) : Bool :=
  (coerceListOrDict v).all strOk

/-- Well-typedness of a normalized dictionary for the Record Builder:
`people` iterable with well-typed dict entries, and every value that can
reach a string-typed model field a string.  This is exactly the guard
under which `build_analysis` cannot raise. -/
def wellFormed (data : List (String × JsonVal)) : Bool :=
  locationWF data && peopleWF data && eraWF data && objectsWF data &&
    strOk (getD data "description" (JsonVal.str "No description available")) &&
    optStrOk (getD data "mood" JsonVal.null) &&
    strListWF (getD data "categories" (JsonVal.arr [])) &&
    strListWF (getD data "colors" (JsonVal.arr []))

-- ------------------------------------------------------------------
-- The Embedding Composer and the embedder: TextEmbedder.
-- ------------------------------------------------------------------

/-- The `EmbeddingResult` pydantic model (timestamp not modelled). -/
structure EmbeddingResult where
  filename : String
  model_used : String
  dimensions : Nat
  embedding : List Float
  source_text : String
deriving Repr

/-- Model of `TextEmbedder.embed`.  The external embedding service is an
opaque collaborator, so the vector it returns is a parameter; the record
stores that vector, its length as `dimensions`, and the source text
truncated to 500 characters with an ellipsis marker when longer. -/
def embed (serviceEmbedding : List Float) (text : String) (filename : String) :
    EmbeddingResult :=
  ⟨filename, "nomic-embed-text", serviceEmbedding.length, serviceEmbedding,
   if text.length > 500 then (String.mk (text.data.take 500)) ++ "..." else text⟩

/-- One element of a Python `str.join`: strings pass through, anything
else raises `TypeError`. -/
def asStrForJoin : JsonVal → Except String String
  | .str s => .ok s
  | _ => .error "TypeError: sequence item is not str"

/-- Python `", ".join(elems)`: every element must be a string, otherwise
`TypeError`. -/
def pyJoin (sep : String) (elems : List JsonVal) : Except String String := do
  let strs ← elems.mapM asStrForJoin
  return String.intercalate sep strs

/-- The description block of `TextEmbedder.embed_analysis`: append the
raw value when present and truthy. -/
def codeDescPart (d : List (String × JsonVal)) : List JsonVal :=
  match getOpt d "description" with
  | some v => if pyTruthy v then [v] else []
  | none => []

/-- The location block: append the `Location:` line when the value is
present, truthy and a dict (the f-string stringifies the fields). -/
def codeLocPart (d : List (String × JsonVal)) : List JsonVal :=
  match getOpt d "location" with
  | some v =>
      if pyTruthy v then
        match v with
        | JsonVal.obj kvs =>
            [JsonVal.str ("Location: " ++ pyStr (getD kvs "setting" (JsonVal.str ""))
              ++ " " ++ pyStr (getD kvs "type" (JsonVal.str "")))]
        | _ => []
      else []
  | none => []

/-- The categories block: when the value is present, truthy and a list,
join the raw elements (raising `TypeError` on a non-string element) into
the `Categories:` line. -/
def codeCatPart (d : List (String × JsonVal)) : Except String (List JsonVal) :=
  match getOpt d "categories" with
  | some v =>
      if pyTruthy v then
        match v with
        | JsonVal.arr l => do
            let joined ← pyJoin ", " l
            pure [JsonVal.str ("Categories: " ++ joined)]
        | _ => pure []
      else pure []
  | none => pure []

/-- The mood block: append the stringified `Mood:` line when present
and truthy. -/
def codeMoodPart (d : List (String × JsonVal)) : List JsonVal :=
  match getOpt d "mood" with
  | some v => if pyTruthy v then [JsonVal.str ("Mood: " ++ pyStr v)] else []
  | none => []

/-- The era block: append the `Era:` line (decade, default `unknown`)
when the value is present, truthy and a dict. -/
def codeEraPart (d : List (String × JsonVal)) : List JsonVal :=
  match getOpt d "era" with
  | some v =>
      if pyTruthy v then
        match v with
        | JsonVal.obj kvs =>
            [JsonVal.str ("Era: " ++ pyStr (getD kvs "decade" (JsonVal.str "unknown")))]
        | _ => []
      else []
  | none => []

/-- The objects block: append the `Objects:` line with stringified,
comma-joined elements when the value is present, truthy and a list. -/
def codeObjPart (d : List (String × JsonVal)) : List JsonVal :=
  match getOpt d "objects" with
  | some v =>
      if pyTruthy v then
        match v with
        | JsonVal.arr l =>
            [JsonVal.str ("Objects: " ++ String.intercalate ", " (l.map pyStr))]
        | _ => []
      else []
  | none => []

/-- Model of the text composition of `TextEmbedder.embed_analysis`: the
`parts` list accumulates the six blocks in source order — description,
location, categories, mood, era, objects — and the final text joins the
parts with the fixed delimiter.  The only block that can raise is the
categories join, which in the source raises before any later block is
appended, so sequencing it first preserves the Python semantics. -/
def embed_analysis_text (d : List (String × JsonVal)) : Except String String := do
  let catPart ← codeCatPart d
  pyJoin " | "
    (codeDescPart d ++ codeLocPart d ++ catPart ++ codeMoodPart d ++ codeEraPart d
      ++ codeObjPart d)

-- ------------------------------------------------------------------
-- The Batch Orchestrator: BatchProcessor of processor.py.
-- ------------------------------------------------------------------

/-- The fixed extension allow-list `SUPPORTED_EXTENSIONS` (a Python set;
its iteration order is fixed here, which no verified property depends
on). -/
def SUPPORTED_EXTENSIONS : List String := [".jpg", ".jpeg", ".png", ".gif", ".webp"]

/-- Whether the character list `cs` ends with `sfx`. -/
def endsWithL (sfx cs : List Char) : Bool :=
  startsWithL sfx.reverse cs.reverse

/-- ASCII upper-casing of a character, as Python `str.upper()` acts on
the ASCII extension literals of the allow-list. -/
def charUpper (c : Char) : Char :=
  if 'a' ≤ c && c ≤ 'z' then Char.ofNat (c.toNat - 32) else c

/-- Python `str.upper()` restricted to ASCII strings. -/
def strUpper (s : String) : String :=
  String.mk (s.data.map charUpper)

/-- Model of `BatchProcessor.find_images`: a directory is its listing of
names; `glob` of the pattern `*` + extension keeps the names ending in
the extension, in listing order; for each extension of the allow-list
the lower-case glob is enumerated, then the upper-case one. -/
def find_images (dirListing : List String) : List String :=
  SUPPORTED_EXTENSIONS.flatMap (fun ext =>
    dirListing.filter (fun n => endsWithL ext.data n.data) ++
      dirListing.filter (fun n => endsWithL (strUpper ext).data n.data))

/-- One discovered image: its filename and its stem. -/
structure Item where
  name : String
  stem : String
deriving Repr, DecidableEq

/-- One entry of the batch result sequence: a per-item summary, or an
error record carrying the filename and the message of the exception
caught at the item boundary (a success entry never carries the `error`
key, so error-ness of an entry is its constructor). -/
inductive BatchEntry where
  | success (filename : String) (elapsed : Float) : BatchEntry
  | failure (filename : String) (error : String) : BatchEntry
deriving Repr

/-- The filename of a batch entry. -/
def BatchEntry.filename : BatchEntry → String
  | .success f _ => f
  | .failure f _ => f

/-- Whether an entry is an error record; models `"error" in r`. -/
def BatchEntry.isError : BatchEntry → Bool
  | .success _ _ => false
  | .failure _ _ => true

/-- The combined output dict of `process_all` (timestamp not modelled). -/
structure BatchReport where
  total_images : Nat
  processed : Nat
  failed : Nat
  total_time_seconds : Float
  results : List BatchEntry
deriving Repr

/-- Model of `BatchProcessor._is_processed`: both the analysis output
file and the embedding output file exist for the item's stem.  The
results directory is abstracted as an existence predicate on names. -/
def is_processed (fileExists : String → Bool) (it : Item) : Bool :=
  fileExists ("analysis_" ++ it.stem ++ ".json") &&
    fileExists ("embedding_" ++ it.stem ++ ".json")

/-- The per-item loop of `BatchProcessor.process_all`.  The per-item
pipeline (`_process_single`: gateway, normalizer, builder, composer,
persistence) is an opaque fallible collaborator `pipeline`, and per-item
wall-clock time an oracle `timeOf`.  A skipped item contributes neither
an entry nor time; a pipeline exception is caught and recorded as an
error entry; a success is recorded with its elapsed time accumulated. -/
def processLoop (skipExisting : Bool) (fileExists : String → Bool)
    (pipeline : Item → Except String Unit) (timeOf : Item → Float) :
    List Item → List BatchEntry × Float
  | [] => ([], 0.0)
  | it :: rest =>
      if skipExisting && is_processed fileExists it then
        processLoop skipExisting fileExists pipeline timeOf rest
      else
        let tail := processLoop skipExisting fileExists pipeline timeOf rest
        match pipeline it with
        | .ok _ => (BatchEntry.success it.name (timeOf it) :: tail.1, timeOf it + tail.2)
        | .error e => (BatchEntry.failure it.name e :: tail.1, tail.2)

/-- Model of `BatchProcessor.process_all`: run the loop over the
discovered items, then build the report, with `processed`/`failed`
derived by partitioning the result sequence into non-error and error
entries. -/
def process_all (skipExisting : Bool) (fileExists : String → Bool)
    (pipeline : Item → Except String Unit) (timeOf : Item → Float)
    (images : List Item) : BatchReport :=
  let loop := processLoop skipExisting fileExists pipeline timeOf images
  ⟨images.length,
   (loop.1.filter (fun r => !r.isError)).length,
   (loop.1.filter (fun r => r.isError)).length,
   loop.2,
   loop.1⟩

-- ------------------------------------------------------------------
-- Specification-side definitions (for refinement statements) and
-- concrete inputs named by the claims.
-- ------------------------------------------------------------------

/-- Spec composition, description part: the description, when present
and non-empty. -/
def specDescPart (d : List (String × JsonVal)) : Option String :=
  match getOpt d "description" with
  | some v => if pyTruthy v then some (pyStr v) else none
  | none => none

/-- Spec composition, location part: `Location: setting type` when a
non-empty location dict is present. -/
def specLocationPart (d : List (String × JsonVal)) : Option String :=
  match getOpt d "location" with
  | some (JsonVal.obj kvs) =>
      if pyTruthy (JsonVal.obj kvs) then
        some ("Location: " ++ pyStr (getD kvs "setting" (JsonVal.str "")) ++ " "
          ++ pyStr (getD kvs "type" (JsonVal.str "")))
      else none
  | _ => none

/-- Spec composition, categories part: `Categories: ` with the
comma-joined categories when a non-empty list is present. -/
def specCategoriesPart (d : List (String × JsonVal)) : Option String :=
  match getOpt d "categories" with
  | some (JsonVal.arr l) =>
      if l.isEmpty then none
      else some ("Categories: " ++ String.intercalate ", " (l.map pyStr))
  | _ => none

/-- Spec composition, mood part: `Mood: ` with the mood when present and
truthy. -/
def specMoodPart (d : List (String × JsonVal)) : Option String :=
  match getOpt d "mood" with
  | some v => if pyTruthy v then some ("Mood: " ++ pyStr v) else none
  | none => none

/-- Spec composition, era part: `Era: ` with the decade (default
`unknown`) when a non-empty era dict is present. -/
def specEraPart (d : List (String × JsonVal)) : Option String :=
  match getOpt d "era" with
  | some (JsonVal.obj kvs) =>
      if pyTruthy (JsonVal.obj kvs) then
        some ("Era: " ++ pyStr (getD kvs "decade" (JsonVal.str "unknown")))
      else none
  | _ => none

/-- Spec composition, objects part: `Objects: ` with the comma-joined
stringified objects when a non-empty list is present. -/
def specObjectsPart (d : List (String × JsonVal)) : Option String :=
  match getOpt d "objects" with
  | some (JsonVal.arr l) =>
      if l.isEmpty then none
      else some ("Objects: " ++ String.intercalate ", " (l.map pyStr))
  | _ => none

/-- The composed parts in the fixed order of §4.3 of the specification:
description, Location, Categories, Mood, Era, Objects, skipping omitted
parts entirely. -/
def specParts (d : List (String × JsonVal)) : List String :=
  List.filterMap id
    [specDescPart d, specLocationPart d, specCategoriesPart d,
     specMoodPart d, specEraPart d, specObjectsPart d]

/-- Typing guard for the composer: a truthy `description` value must be
a string (otherwise the final join raises `TypeError`). -/
def descOk (d : List (String × JsonVal)) : Bool :=
  match getOpt d "description" with
  | some v => !pyTruthy v || strOk v
  | none => true

/-- Typing guard for the composer: the elements of a `categories` list
must be strings (otherwise the inner join raises `TypeError`). -/
def catOk (d : List (String × JsonVal)) : Bool :=
  match getOpt d "categories" with
  | some (JsonVal.arr l) => l.all strOk
  | _ => true

/-- The per-item record appended by the orchestrator loop for a
non-skipped item: a summary on success, an error entry on failure. -/
def entryOf (pipeline : Item → Except String Unit) (timeOf : Item → Float)
    (it : Item) : BatchEntry :=
  match pipeline it with
  | .ok _ => .success it.name (timeOf it)
  | .error e => .failure it.name e

/-- The truncated, unbalanced input string of the brace-repair test
property of §8 of the specification. -/
def c1_input : String := "\x7b\"description\": \"a photo\", \"objects\": ["

/-- The ten glob suffixes enumerated by `find_images`, lower case then
upper case per extension of the allow-list. -/
def globSuffixes : List (List Char) :=
  SUPPORTED_EXTENSIONS.flatMap (fun ext => [ext.data, (strUpper ext).data])

-- ==================================================================
-- Theorems.
-- ==================================================================

/-- C9: for every embedding record produced by the embedder — any input
text, any filename, and any vector returned by the embedding service —
the `dimensions` field equals the length of the `embedding` sequence. -/
theorem embed_dimensions_eq_length (vec : List Float) (text filename : String) :
    (embed vec text filename).dimensions = (embed vec text filename).embedding.length := rfl

/-- The final brace count of the `_fix_json` scan is the initial count
plus the number of opening braces minus the number of closing braces. -/
theorem fixScan_fst (cs : List Char) : ∀ (b k : Int) (i lv : Nat),
    (fixScan cs b k i lv).1 = b + (cs.count '{' : Int) - (cs.count '}' : Int) := by
  induction cs with
  | nil => intro b k i lv; simp [fixScan]
  | cons c cs ih =>
      intro b k i lv
      simp only [fixScan]
      by_cases h1 : c = '{'
      · rw [if_pos h1, ih, List.count_cons, List.count_cons]
        subst h1
        simp only [beq_iff_eq, if_pos rfl, if_neg (by decide : ¬('{' : Char) = '}')]
        push_cast
        omega
      rw [if_neg h1]
      by_cases h2 : c = '}'
      · rw [if_pos h2]
        subst h2
        by_cases h0 : b - 1 = 0
        · rw [if_pos h0, ih, List.count_cons, List.count_cons]
          simp only [beq_iff_eq, if_neg h1, if_pos rfl]
          push_cast
          omega
        · rw [if_neg h0, ih, List.count_cons, List.count_cons]
          simp only [beq_iff_eq, if_neg h1, if_pos rfl]
          push_cast
          omega
      rw [if_neg h2]
      by_cases h3 : c = '['
      · rw [if_pos h3, ih, List.count_cons, List.count_cons]
        simp [beq_iff_eq, h1, h2]
      rw [if_neg h3]
      by_cases h4 : c = ']'
      · rw [if_pos h4, ih, List.count_cons, List.count_cons]
        simp [beq_iff_eq, h1, h2]
      rw [if_neg h4, ih, List.count_cons, List.count_cons]
      simp [beq_iff_eq, h1, h2]

/-- C10: when the input has as many opening as closing braces, the brace
count ends at zero, so `_fix_json` returns its input unchanged — no
truncation and no repair, even when brackets are unbalanced. -/
theorem fix_json_id_of_balanced (s : String)
    (h : s.data.count '{' = s.data.count '}') : fix_json s = s := by
  unfold fix_json
  have hb := fixScan_fst s.data 0 0 0 0
  rw [h] at hb
  simp only [zero_add, sub_self] at hb
  simp [hb]

/-- Witness for C10 at the bracket-unbalanced input `[\x7b\x7d`. -/
theorem fix_json_id_of_balanced_witness :
    ("[\x7b\x7d" : String).data.count '{' = ("[\x7b\x7d" : String).data.count '}'
      ∧ fix_json "[\x7b\x7d" = "[\x7b\x7d" :=
  ⟨by decide, fix_json_id_of_balanced "[\x7b\x7d" (by decide)⟩

/-- `startsWithL` decides the initial-segment relation. -/
theorem startsWithL_iff : ∀ (p c : List Char), startsWithL p c = true ↔ p <+: c
  | [], c => by simp [startsWithL, List.nil_prefix]
  | p :: ps, [] => by
      simp only [startsWithL, Bool.false_eq_true, false_iff]
      intro h
      exact absurd (List.IsPrefix.length_le h) (by simp)
  | p :: ps, c :: cs => by
      simp [startsWithL, List.cons_prefix_cons, startsWithL_iff ps cs, and_comm]

/-- `endsWithL` decides the suffix relation. -/
theorem endsWithL_iff (sfx cs : List Char) : endsWithL sfx cs = true ↔ sfx <:+ cs := by
  have h := @List.reverse_suffix Char sfx.reverse cs.reverse
  simp only [List.reverse_reverse] at h
  rw [endsWithL, startsWithL_iff]
  exact h.symm

/-- Concatenating, over a list of pairwise suffix-incomparable suffixes,
the sublists of a duplicate-free listing that end in each suffix yields
a duplicate-free list: no name can end in two incomparable suffixes. -/
theorem flat_suffix_filters_nodup (dir : List String) (hdir : dir.Nodup) :
    ∀ (sfxs : List (List Char)),
      sfxs.Pairwise (fun a b => ¬a <:+ b ∧ ¬b <:+ a) →
      (sfxs.flatMap (fun sfx => dir.filter (fun n => endsWithL sfx n.data))).Nodup := by
  intro sfxs
  induction sfxs with
  | nil => intro _; simp
  | cons hd t ih =>
      intro hp
      rw [List.pairwise_cons] at hp
      rw [List.flatMap_cons, List.nodup_append]
      refine ⟨hdir.filter _, ih hp.2, ?_⟩
      intro x hx hx'
      rw [List.mem_filter] at hx
      rw [List.mem_flatMap] at hx'
      obtain ⟨sfx, hsfx, hxf⟩ := hx'
      rw [List.mem_filter] at hxf
      have h1 : hd <:+ x.data := (endsWithL_iff _ _).mp hx.2
      have h2 : sfx <:+ x.data := (endsWithL_iff _ _).mp hxf.2
      rcases List.suffix_or_suffix_of_suffix h1 h2 with hs | hs
      · exact (hp.1 sfx hsfx).1 hs
      · exact (hp.1 sfx hsfx).2 hs

/-- `find_images` regrouped as one pass per glob suffix. -/
theorem find_images_eq_globSuffixes (dir : List String) :
    find_images dir = globSuffixes.flatMap (fun sfx => dir.filter (fun n => endsWithL sfx n.data)) := by
  simp [find_images, globSuffixes, SUPPORTED_EXTENSIONS]

/-- C4: for every source-directory listing without duplicate names, the
discovery of `find_images` — case variants of the fixed allow-list
`jpg, jpeg, png, gif, webp`, enumerated extension before case — returns
each candidate image at most once: the resulting path sequence has no
duplicates. -/
theorem find_images_nodup (dir : List String) (hdir : dir.Nodup) :
    (find_images dir).Nodup := by
  rw [find_images_eq_globSuffixes]
  apply flat_suffix_filters_nodup dir hdir
  have hg : globSuffixes =
      [".jpg".data, ".JPG".data, ".jpeg".data, ".JPEG".data, ".png".data, ".PNG".data,
       ".gif".data, ".GIF".data, ".webp".data, ".WEBP".data] := by decide
  rw [hg]
  decide

/-- Witness for C4 on a concrete listing with close case variants. -/
theorem find_images_nodup_witness :
    (["a.jpg", "a.JPG", "b.png", "b.jpeg", "c.txt"] : List String).Nodup
      ∧ (find_images ["a.jpg", "a.JPG", "b.png", "b.jpeg", "c.txt"]).Nodup :=
  ⟨by decide, find_images_nodup _ (by decide)⟩

/-- With skipping disabled, the orchestrator loop records exactly one
entry per discovered item, in order. -/
theorem processLoop_no_skip (fe : String → Bool) (pipeline : Item → Except String Unit)
    (timeOf : Item → Float) : ∀ items : List Item,
    (processLoop false fe pipeline timeOf items).1 = items.map (entryOf pipeline timeOf) := by
  intro items
  induction items with
  | nil => simp [processLoop]
  | cons it rest ih =>
      simp only [processLoop, Bool.false_and, Bool.false_eq_true, if_false, List.map_cons]
      cases hp : pipeline it <;> simp [entryOf, hp, ih]

/-- A Boolean complement bridge for `countP`. -/
theorem countP_not_eq_sub {α : Type} (p : α → Bool) (l : List α) :
    l.countP (fun a => !p a) = l.length - l.countP p := by
  have h := List.length_eq_countP_add_countP p l
  have h2 : l.countP (fun a => decide ¬p a = true) = l.countP (fun a => !p a) := by
    apply List.countP_congr
    intro a _
    cases p a <;> simp
  omega

/-- C7: with skipping disabled, every pipeline exception is caught at
the item boundary and recorded as an error entry while processing
continues, so the report's result sequence carries every discovered
filename in order, `processed` counts the items whose pipeline
succeeded, `failed` counts the items whose pipeline raised, and in
particular a batch of three items with exactly one raising item reports
`processed = 2` and `failed = 1`. -/
theorem process_all_isolates_failures (fe : String → Bool)
    (pipeline : Item → Except String Unit) (timeOf : Item → Float) (items : List Item) :
    (process_all false fe pipeline timeOf items).results.map BatchEntry.filename
        = items.map Item.name
    ∧ (process_all false fe pipeline timeOf items).processed
        = items.countP (fun it => (pipeline it).isOk)
    ∧ (process_all false fe pipeline timeOf items).failed
        = items.countP (fun it => !(pipeline it).isOk)
    ∧ (items.length = 3 → items.countP (fun it => !(pipeline it).isOk) = 1 →
        (process_all false fe pipeline timeOf items).processed = 2
          ∧ (process_all false fe pipeline timeOf items).failed = 1) := by
  have hres : (process_all false fe pipeline timeOf items).results
      = items.map (entryOf pipeline timeOf) := processLoop_no_skip fe pipeline timeOf items
  have hname : ∀ it, (entryOf pipeline timeOf it).filename = it.name := by
    intro it
    cases hp : pipeline it <;> simp [entryOf, hp, BatchEntry.filename]
  have herr : ∀ it, (entryOf pipeline timeOf it).isError = !(pipeline it).isOk := by
    intro it
    cases hp : pipeline it <;> simp [entryOf, hp, BatchEntry.isError, Except.isOk, Except.toBool]
  have hproc : (process_all false fe pipeline timeOf items).processed
      = items.countP (fun it => (pipeline it).isOk) := by
    show ((processLoop false fe pipeline timeOf items).1.filter
        (fun r => !r.isError)).length = _
    rw [processLoop_no_skip fe pipeline timeOf items, ← List.countP_eq_length_filter,
      List.countP_map]
    apply List.countP_congr
    intro it _
    simp [Function.comp, herr it]
  have hfail : (process_all false fe pipeline timeOf items).failed
      = items.countP (fun it => !(pipeline it).isOk) := by
    show ((processLoop false fe pipeline timeOf items).1.filter
        (fun r => r.isError)).length = _
    rw [processLoop_no_skip fe pipeline timeOf items, ← List.countP_eq_length_filter,
      List.countP_map]
    apply List.countP_congr
    intro it _
    simp [Function.comp, herr it]
  refine ⟨?_, hproc, hfail, ?_⟩
  · rw [hres, List.map_map]
    apply List.map_congr_left
    intro it _
    exact hname it
  · intro hlen hone
    constructor
    · rw [hproc]
      have := countP_not_eq_sub (fun it => (pipeline it).isOk) items
      rw [hone] at this
      omega
    · rw [hfail, hone]

/-- Witness for C7: three items, the middle pipeline run raises. -/
theorem process_all_isolates_failures_witness :
    (process_all false (fun _ => false)
        (fun it => if it.name = "b.jpg" then Except.error "boom" else Except.ok ())
        (fun _ => 0.0)
        [⟨"a.jpg", "a"⟩, ⟨"b.jpg", "b"⟩, ⟨"c.jpg", "c"⟩]).processed = 2
    ∧ (process_all false (fun _ => false)
        (fun it => if it.name = "b.jpg" then Except.error "boom" else Except.ok ())
        (fun _ => 0.0)
        [⟨"a.jpg", "a"⟩, ⟨"b.jpg", "b"⟩, ⟨"c.jpg", "c"⟩]).failed = 1
    ∧ (process_all false (fun _ => false)
        (fun it => if it.name = "b.jpg" then Except.error "boom" else Except.ok ())
        (fun _ => 0.0)
        [⟨"a.jpg", "a"⟩, ⟨"b.jpg", "b"⟩, ⟨"c.jpg", "c"⟩]).results.map BatchEntry.filename
      = ["a.jpg", "b.jpg", "c.jpg"] := by
  have h := process_all_isolates_failures (fun _ => false)
    (fun it => if it.name = "b.jpg" then Except.error "boom" else Except.ok ())
    (fun _ => 0.0) [⟨"a.jpg", "a"⟩, ⟨"b.jpg", "b"⟩, ⟨"c.jpg", "c"⟩]
  have h4 := h.2.2.2 (by decide) (by decide)
  exact ⟨h4.1, h4.2, h.1⟩

/-- When every discovered item already has both output files, the
skip-existing loop records nothing. -/
theorem processLoop_skip_all (fe : String → Bool) (pipeline : Item → Except String Unit)
    (timeOf : Item → Float) : ∀ items : List Item,
    (∀ it ∈ items, fe ("analysis_" ++ it.stem ++ ".json") = true
        ∧ fe ("embedding_" ++ it.stem ++ ".json") = true) →
    processLoop true fe pipeline timeOf items = ([], 0.0) := by
  intro items
  induction items with
  | nil => intro _; simp [processLoop]
  | cons it rest ih =>
      intro h
      have h1 := h it (List.mem_cons_self it rest)
      simp [processLoop, is_processed, h1.1, h1.2,
        ih (fun x hx => h x (List.mem_cons_of_mem _ hx))]

/-- C8: a second run with `skip_existing` enabled, at a point where both
the analysis output and the embedding output exist for every discovered
item's stem, processes zero items: nothing is timed, no entry is
appended, and the report shows `processed = 0` and `failed = 0`. -/
theorem process_all_skip_all (fe : String → Bool) (pipeline : Item → Except String Unit)
    (timeOf : Item → Float) (items : List Item)
    (h : ∀ it ∈ items, fe ("analysis_" ++ it.stem ++ ".json") = true
        ∧ fe ("embedding_" ++ it.stem ++ ".json") = true) :
    (process_all true fe pipeline timeOf items).results = []
    ∧ (process_all true fe pipeline timeOf items).processed = 0
    ∧ (process_all true fe pipeline timeOf items).failed = 0
    ∧ (process_all true fe pipeline timeOf items).total_time_seconds = 0.0
    ∧ (process_all true fe pipeline timeOf items).total_images = items.length := by
  have hloop := processLoop_skip_all fe pipeline timeOf items h
  simp [process_all, hloop]

/-- Witness for C8 at a two-item batch whose outputs all exist. -/
theorem process_all_skip_all_witness :
    (process_all true (fun _ => true) (fun _ => Except.ok ()) (fun _ => 1.5)
        [⟨"a.jpg", "a"⟩, ⟨"b.jpg", "b"⟩]).results = []
    ∧ (process_all true (fun _ => true) (fun _ => Except.ok ()) (fun _ => 1.5)
        [⟨"a.jpg", "a"⟩, ⟨"b.jpg", "b"⟩]).processed = 0
    ∧ (process_all true (fun _ => true) (fun _ => Except.ok ()) (fun _ => 1.5)
        [⟨"a.jpg", "a"⟩, ⟨"b.jpg", "b"⟩]).failed = 0 := by
  have h := process_all_skip_all (fun _ => true) (fun _ => Except.ok ()) (fun _ => 1.5)
    [⟨"a.jpg", "a"⟩, ⟨"b.jpg", "b"⟩] (by intro it _; exact ⟨rfl, rfl⟩)
  exact ⟨h.1, h.2.1, h.2.2.1⟩

/-- Counterexample for C1: on the truncated input
`\x7b"description": "a photo", "objects": [` the Normalizer does not
return a dictionary mapping `description` to `"a photo"` — the input has
no fenced block, so the brace-repair path is never reached, and the
greedy span finds no closing brace, so the fallback maps `description`
to the whole raw input. -/
theorem parse_response_c1_counterexample :
    (parse_response c1_input).getKey "description" ≠ some (JsonVal.str "a photo") := by
  intro h
  rw [show (parse_response c1_input).getKey "description"
      = some (JsonVal.str c1_input) from rfl] at h
  have h2 := JsonVal.str.inj (Option.some.inj h)
  exact absurd h2 (by decide)

/-- C1 as amended: for the truncated input the Normalizer returns the
fallback dictionary, whose `description` is the raw input and whose
`parse_error` flag is set; the brace repair itself, even applied
directly, appends a closing brace after the dangling `[` and the result
still fails to parse. -/
theorem parse_response_c1_amended :
    parse_response c1_input
      = JsonVal.obj [("description", JsonVal.str c1_input), ("parse_error", JsonVal.bool true)]
    ∧ fix_json c1_input = c1_input ++ "\x7d"
    ∧ json_loads (fix_json c1_input) = none :=
  ⟨rfl, rfl, rfl⟩

/-- Counterexample for C2: the input `[]` is valid JSON of a non-object
kind, and the Normalizer returns the parsed list, not a dictionary. -/
theorem parse_response_c2_counterexample :
    parse_response "[]" = JsonVal.arr [] ∧ (JsonVal.arr []).isObj = false :=
  ⟨rfl, rfl⟩

/-- A successful scan in `members` mode always returns an object. -/
theorem parseRun_members_obj : ∀ (fuel : Nat) (acc : List (String × JsonVal))
    (cs : List Char) (v : JsonVal) (r : List Char),
    parseRun fuel (PMode.members acc) cs = some (v, r) → v.isObj = true := by
  intro fuel
  induction fuel with
  | zero => intro acc cs v r h; simp [parseRun] at h
  | succ fuel ih =>
      intro acc cs v r h
      simp only [parseRun] at h
      repeat
        first
        | exact ih _ _ _ _ h
        | (obtain ⟨h1, h2⟩ := Prod.mk.inj (Option.some.inj h); subst h1; rfl)
        | (exact absurd h (by simp))
        | split at h

/-- A successful parse of a value beginning with an opening brace always
returns an object. -/
theorem parseRun_value_brace : ∀ (fuel : Nat) (rest : List Char) (v : JsonVal)
    (r : List Char),
    parseRun fuel PMode.value ('{' :: rest) = some (v, r) → v.isObj = true := by
  intro fuel rest v r h
  cases fuel with
  | zero => simp [parseRun] at h
  | succ fuel =>
      simp only [parseRun] at h
      split at h
      · obtain ⟨h1, h2⟩ := Prod.mk.inj (Option.some.inj h)
        subst h1
        rfl
      · exact parseRun_members_obj fuel [] _ v r h

/-- Dropping up to the first opening brace leaves either nothing or a
list headed by an opening brace. -/
theorem dropWhile_ne_brace (l : List Char) :
    l.dropWhile (fun c => c ≠ '{') = []
      ∨ ∃ l', l.dropWhile (fun c => c ≠ '{') = '{' :: l' := by
  induction l with
  | nil => left; rfl
  | cons a l ih =>
      by_cases ha : a = '{'
      · right; exact ⟨l, by simp [List.dropWhile_cons, ha]⟩
      · simpa [List.dropWhile_cons, ha] using ih

/-- A successful greedy brace span starts with an opening brace. -/
theorem braceSpan_head (s t : String) (h : braceSpan s = some t) :
    ∃ l, t.data = '{' :: l := by
  simp only [braceSpan] at h
  split at h
  · exact absurd h (by simp)
  · rename_i hne
    have ht : t.data = ((s.data.dropWhile (fun c => c ≠ '{')).reverse.dropWhile
        (fun c => c ≠ '}')).reverse := by
      rw [← Option.some.inj h]
    rw [← ht] at hne
    have hsuf : (s.data.dropWhile (fun c => c ≠ '{')).reverse.dropWhile (fun c => c ≠ '}')
        <:+ (s.data.dropWhile (fun c => c ≠ '{')).reverse := List.dropWhile_suffix _
    have hpref : t.data <+: s.data.dropWhile (fun c => c ≠ '{') := by
      rw [ht]
      have h2 := @List.reverse_suffix Char
        ((s.data.dropWhile (fun c => c ≠ '{')).reverse.dropWhile (fun c => c ≠ '}')).reverse
        (s.data.dropWhile (fun c => c ≠ '{'))
      simp only [List.reverse_reverse] at h2
      exact h2.mp hsuf
    have hnonempty : t.data ≠ [] := by
      intro hd
      exact hne (by simp [hd])
    rcases dropWhile_ne_brace s.data with hnil | ⟨l', hl'⟩
    · rw [hnil] at hpref
      rw [List.prefix_nil] at hpref
      exact absurd hpref hnonempty
    · obtain ⟨t2, ht2⟩ := hpref
      rw [hl'] at ht2
      cases hcase : t.data with
      | nil => exact absurd hcase hnonempty
      | cons b bs =>
          rw [hcase] at ht2
          simp only [List.cons_append] at ht2
          have hb := (List.cons.inj ht2).1
          exact ⟨bs, by rw [hb]⟩

/-- A successful `json_loads` of a string whose first character is an
opening brace yields an object. -/
theorem json_loads_brace_isObj (t : String) (l : List Char) (hd : t.data = '{' :: l)
    (v : JsonVal) (h : json_loads t = some v) : v.isObj = true := by
  unfold json_loads at h
  rw [hd] at h
  have hsw : skipWs ('{' :: l) = '{' :: l := by simp [skipWs, isJsonWs]
  rw [hsw] at h
  cases hp : parseValue (2 * t.length + 4) ('{' :: l) with
  | none => rw [hp] at h; simp at h
  | some p =>
      obtain ⟨v', r⟩ := p
      rw [hp] at h
      have h' : (if (skipWs r).isEmpty = true then some v' else none) = some v := h
      by_cases hr : (skipWs r).isEmpty = true
      · rw [if_pos hr] at h'
        have hv := Option.some.inj h'
        subst hv
        exact parseRun_value_brace (2 * t.length + 4) l v' r hp
      · rw [if_neg hr] at h'
        exact absurd h' (by simp)

/-- The greedy-span-then-fallback tail of the Normalizer always returns
a dictionary. -/
theorem spanParse_isObj (s : String) : (spanParse s).isObj = true := by
  unfold spanParse
  cases hb : braceSpan s with
  | none => rfl
  | some t =>
      show (match json_loads t with
        | some v => v
        | none => fallbackDict s).isObj = true
      cases hj : json_loads t with
      | none => rfl
      | some v =>
          obtain ⟨l, hl⟩ := braceSpan_head s t hb
          exact json_loads_brace_isObj t l hl v hj

/-- C2 as amended: the Normalizer never raises (it is total) and always
returns a value; that value is a dictionary except when the direct parse
of the whole input, or the parse of the extracted fenced content or of
its brace-repaired form, succeeds with a non-object JSON value, in which
case that non-object value is returned as-is. -/
theorem parse_response_total_dict (s : String) :
    (parse_response s).isObj = true
    ∨ (json_loads s = some (parse_response s) ∧ (parse_response s).isObj = false)
    ∨ (∃ c, extractFenced s = some c
        ∧ (json_loads c = some (parse_response s)
            ∨ json_loads (fix_json c) = some (parse_response s))
        ∧ (parse_response s).isObj = false) := by
  cases h1 : json_loads s with
  | some v =>
      have he : parse_response s = v := by
        unfold parse_response
        simp only [h1]
      by_cases hv : v.isObj = true
      · left; rw [he]; exact hv
      · right; left
        exact ⟨by rw [he], by rw [he]; simpa using hv⟩
  | none =>
      cases h2 : extractFenced s with
      | none =>
          have he : parse_response s = spanParse s := by
            unfold parse_response
            simp only [h1, h2]
          left; rw [he]; exact spanParse_isObj s
      | some c =>
          cases h3 : json_loads c with
          | some v =>
              have he : parse_response s = v := by
                unfold parse_response
                simp only [h1, h2, h3]
              by_cases hv : v.isObj = true
              · left; rw [he]; exact hv
              · right; right
                exact ⟨c, rfl, Or.inl (by rw [he]; exact h3), by rw [he]; simpa using hv⟩
          | none =>
              cases h4 : json_loads (fix_json c) with
              | some v =>
                  have he : parse_response s = v := by
                    unfold parse_response
                    simp only [h1, h2, h3, h4]
                  by_cases hv : v.isObj = true
                  · left; rw [he]; exact hv
                  · right; right
                    exact ⟨c, rfl, Or.inr (by rw [he]; exact h4), by rw [he]; simpa using hv⟩
              | none =>
                  have he : parse_response s = spanParse s := by
                    unfold parse_response
                    simp only [h1, h2, h3, h4]
                  left; rw [he]; exact spanParse_isObj s

/-- String-wrapped lists validate to their underlying strings. -/
theorem asStrList_map_str {α : Type} (f : α → String) (l : List α) :
    asStrList (l.map (fun x => JsonVal.str (f x))) = Except.ok (l.map f) := by
  induction l with
  | nil => rfl
  | cons a l ih =>
      simp only [List.map_cons, asStrList, List.mapM_cons]
      rw [show List.mapM asStr (l.map (fun x => JsonVal.str (f x)))
          = Except.ok (l.map f) from ih]
      rfl

/-- Validating the dict-flattened objects list yields the flat map of
the dict's values: list values contribute their stringified elements,
other values their stringification. -/
theorem asStrList_flattenDict (kvs : List (String × JsonVal)) :
    asStrList (flattenDictLoop kvs)
      = Except.ok (kvs.flatMap (fun kv =>
          match kv.2 with
          | JsonVal.arr l => l.map pyStr
          | v => [pyStr v])) := by
  induction kvs with
  | nil => rfl
  | cons kv rest ih =>
      obtain ⟨k, v⟩ := kv
      simp only [flattenDictLoop, List.flatMap_cons, asStrList, List.mapM_append]
      rw [show List.mapM asStr (flattenDictLoop rest)
          = Except.ok (rest.flatMap (fun kv =>
              match kv.2 with
              | JsonVal.arr l => l.map pyStr
              | v => [pyStr v])) from ih]
      cases v with
      | arr l =>
          rw [show List.mapM asStr (l.map (fun x => JsonVal.str (pyStr x)))
              = Except.ok (l.map pyStr) from asStrList_map_str pyStr l]
          rfl
      | null => rfl
      | bool b => rfl
      | num lex => rfl
      | str s => rfl
      | obj okvs => rfl

/-- C5: when the raw `objects` value is a dictionary, the Record Builder
flattens its values in iteration order into one flat list of strings —
list values extended element-wise as strings, other values stringified
and appended — and in particular `\x7b"a": ["x","y"], "b": "z"\x7d`
yields `["x","y","z"]`. -/
theorem build_analysis_objects_dict (filename raw : String)
    (kvs : List (String × JsonVal)) :
    (build_analysis filename [("objects", JsonVal.obj kvs)] raw).map PhotoAnalysis.objects
      = Except.ok (kvs.flatMap (fun kv =>
          match kv.2 with
          | JsonVal.arr l => l.map pyStr
          | v => [pyStr v]))
    ∧ (build_analysis filename [("objects", JsonVal.obj
        [("a", JsonVal.arr [JsonVal.str "x", JsonVal.str "y"]),
         ("b", JsonVal.str "z")])] raw).map PhotoAnalysis.objects
      = Except.ok ["x", "y", "z"] := by
  constructor
  · have h1 : build_analysis filename [("objects", JsonVal.obj kvs)] raw
        = (asStrList (flattenDictLoop kvs)).bind (fun objects =>
            Except.ok ⟨filename, "llava:7b", "No description available", none, [], [],
              none, none, [], objects, some raw⟩) := rfl
    rw [h1, asStrList_flattenDict]
    rfl
  · rfl

/-- `str()` of a Python string is itself. -/
theorem pyStr_str (s : String) : pyStr (JsonVal.str s) = s := rfl

/-- `filterMap id` over a cons of options splits off the head's list. -/
theorem filterMap_id_cons {α : Type} (o : Option α) (l : List (Option α)) :
    List.filterMap id (o :: l) = o.toList ++ List.filterMap id l := by
  cases o <;> simp

/-- Joining a list of all-string values succeeds with the values'
stringifications interleaved with the separator. -/
theorem mapM_asStrForJoin_all (l : List JsonVal) (h : l.all strOk = true) :
    List.mapM asStrForJoin l = Except.ok (l.map pyStr) := by
  induction l with
  | nil => rfl
  | cons a l ih =>
      simp only [List.all_cons, Bool.and_eq_true] at h
      cases a with
      | str s =>
          simp only [List.mapM_cons, List.map_cons]
          rw [ih h.2]
          rfl
      | null => exact absurd h.1 (by simp [strOk])
      | bool b => exact absurd h.1 (by simp [strOk])
      | num lex => exact absurd h.1 (by simp [strOk])
      | arr es => exact absurd h.1 (by simp [strOk])
      | obj kvs => exact absurd h.1 (by simp [strOk])

/-- `join` over all-string values equals the intercalation of their
stringifications. -/
theorem pyJoin_all_str (sep : String) (l : List JsonVal) (h : l.all strOk = true) :
    pyJoin sep l = Except.ok (String.intercalate sep (l.map pyStr)) := by
  simp only [pyJoin, mapM_asStrForJoin_all l h]
  rfl

/-- The description block matches the spec's description part when a
truthy description value is a string. -/
theorem codeDescPart_spec (d : List (String × JsonVal)) (h : descOk d = true) :
    codeDescPart d = (specDescPart d).toList.map JsonVal.str := by
  simp only [codeDescPart, specDescPart]
  cases hg : getOpt d "description" with
  | none => rfl
  | some v =>
      simp only [descOk, hg] at h
      by_cases ht : pyTruthy v = true
      · simp only [ht, if_pos, Option.toList_some, List.map_cons, List.map_nil]
        rw [ht] at h
        simp only [Bool.not_true, Bool.false_or] at h
        cases v with
        | str s => simp [pyStr]
        | null => exact absurd h (by simp [strOk])
        | bool b => exact absurd h (by simp [strOk])
        | num lex => exact absurd h (by simp [strOk])
        | arr es => exact absurd h (by simp [strOk])
        | obj kvs => exact absurd h (by simp [strOk])
      · simp [ht]

/-- The location block always matches the spec's location part. -/
theorem codeLocPart_spec (d : List (String × JsonVal)) :
    codeLocPart d = (specLocationPart d).toList.map JsonVal.str := by
  simp only [codeLocPart, specLocationPart]
  cases hg : getOpt d "location" with
  | none => rfl
  | some v =>
      cases v with
      | obj kvs => by_cases ht : pyTruthy (JsonVal.obj kvs) = true <;> simp [ht]
      | null => simp
      | bool b => by_cases hb : b = true <;> simp [hb, pyTruthy]
      | num lex => by_cases hn : pyTruthy (JsonVal.num lex) = true <;> simp [hn]
      | str s => by_cases hs : pyTruthy (JsonVal.str s) = true <;> simp [hs]
      | arr es => by_cases ha : pyTruthy (JsonVal.arr es) = true <;> simp [ha]

/-- `pure` of the `Except` monad is `ok`. -/
theorem exceptPure_eq_ok {e a : Type} (x : a) : (pure x : Except e a) = Except.ok x := rfl

/-- The categories block matches the spec's categories part when the
list's elements are strings. -/
theorem codeCatPart_spec (d : List (String × JsonVal)) (h : catOk d = true) :
    codeCatPart d = Except.ok ((specCategoriesPart d).toList.map JsonVal.str) := by
  simp only [codeCatPart, specCategoriesPart]
  cases hg : getOpt d "categories" with
  | none => rfl
  | some v =>
      simp only [catOk, hg] at h
      cases v with
      | arr l =>
          by_cases he : l.isEmpty = true
          · simp [pyTruthy, he, exceptPure_eq_ok]
          · simp only [pyTruthy, he, Bool.not_false, if_pos, if_neg,
              Option.toList_some, List.map_cons, List.map_nil]
            rw [show pyJoin ", " l = Except.ok (String.intercalate ", " (l.map pyStr))
              from pyJoin_all_str ", " l h]
            simp only [he, Bool.false_eq_true, if_false]
            rfl
      | null => simp [pyTruthy, exceptPure_eq_ok]
      | bool b => by_cases hb : b = true <;> simp [hb, pyTruthy, exceptPure_eq_ok]
      | num lex => by_cases hn : pyTruthy (JsonVal.num lex) = true <;>
          simp [hn, exceptPure_eq_ok]
      | str s => by_cases hs : pyTruthy (JsonVal.str s) = true <;>
          simp [hs, exceptPure_eq_ok]
      | obj kvs => by_cases ho : pyTruthy (JsonVal.obj kvs) = true <;>
          simp [ho, exceptPure_eq_ok]

/-- The mood block always matches the spec's mood part. -/
theorem codeMoodPart_spec (d : List (String × JsonVal)) :
    codeMoodPart d = (specMoodPart d).toList.map JsonVal.str := by
  simp only [codeMoodPart, specMoodPart]
  cases hg : getOpt d "mood" with
  | none => rfl
  | some v => by_cases ht : pyTruthy v = true <;> simp [ht]

/-- The era block always matches the spec's era part. -/
theorem codeEraPart_spec (d : List (String × JsonVal)) :
    codeEraPart d = (specEraPart d).toList.map JsonVal.str := by
  simp only [codeEraPart, specEraPart]
  cases hg : getOpt d "era" with
  | none => rfl
  | some v =>
      cases v with
      | obj kvs => by_cases ht : pyTruthy (JsonVal.obj kvs) = true <;> simp [ht]
      | null => simp
      | bool b => by_cases hb : b = true <;> simp [hb, pyTruthy]
      | num lex => by_cases hn : pyTruthy (JsonVal.num lex) = true <;> simp [hn]
      | str s => by_cases hs : pyTruthy (JsonVal.str s) = true <;> simp [hs]
      | arr es => by_cases ha : pyTruthy (JsonVal.arr es) = true <;> simp [ha]

/-- The objects block always matches the spec's objects part. -/
theorem codeObjPart_spec (d : List (String × JsonVal)) :
    codeObjPart d = (specObjectsPart d).toList.map JsonVal.str := by
  simp only [codeObjPart, specObjectsPart]
  cases hg : getOpt d "objects" with
  | none => rfl
  | some v =>
      cases v with
      | arr l =>
          by_cases he : l.isEmpty = true
          · simp [pyTruthy, he]
          · simp [pyTruthy, he]
      | null => simp
      | bool b => by_cases hb : b = true <;> simp [hb, pyTruthy]
      | num lex => by_cases hn : pyTruthy (JsonVal.num lex) = true <;> simp [hn]
      | str s => by_cases hs : pyTruthy (JsonVal.str s) = true <;> simp [hs]
      | obj kvs => by_cases ho : pyTruthy (JsonVal.obj kvs) = true <;> simp [ho]

/-- C6: whenever a truthy description is a string and the categories
list holds strings (always the case for a serialized analysis record),
the Embedding Composer emits exactly the present parts in the fixed
order description, Location, Categories, Mood, Era, Objects, joined by
the fixed delimiter and skipping omitted parts entirely. -/
theorem embed_analysis_text_composes (d : List (String × JsonVal))
    (h1 : descOk d = true) (h2 : catOk d = true) :
    embed_analysis_text d = Except.ok (String.intercalate " | " (specParts d)) := by
  unfold embed_analysis_text
  rw [codeCatPart_spec d h2]
  show pyJoin " | " (codeDescPart d ++ codeLocPart d
      ++ (specCategoriesPart d).toList.map JsonVal.str ++ codeMoodPart d ++ codeEraPart d
      ++ codeObjPart d) = _
  rw [codeDescPart_spec d h1, codeLocPart_spec d, codeMoodPart_spec d, codeEraPart_spec d,
    codeObjPart_spec d]
  rw [← List.map_append, ← List.map_append, ← List.map_append, ← List.map_append,
    ← List.map_append]
  rw [pyJoin_all_str " | " _ (by simp [List.all_map, Function.comp, strOk])]
  simp [specParts, filterMap_id_cons, List.map_map, Function.comp_def, pyStr_str,
    List.append_assoc]

/-- Witness for C6 at the dictionary of the spec's example: description
`d`, categories `a`, `b`, mood `happy`, no location, era or objects. -/
theorem embed_analysis_text_composes_witness :
    embed_analysis_text
        [("description", JsonVal.str "d"),
         ("categories", JsonVal.arr [JsonVal.str "a", JsonVal.str "b"]),
         ("mood", JsonVal.str "happy")]
      = Except.ok "d | Categories: a, b | Mood: happy" := by
  rw [embed_analysis_text_composes _ (by decide) (by decide)]
  rfl

/-- Counterexample for C3: a normalized dictionary whose `people` value
is JSON `null` makes the Record Builder iterate `None`, which raises
`TypeError` — it does not return a record. -/
theorem build_analysis_people_counterexample :
    build_analysis "photo.jpg" [("people", JsonVal.null)] "raw"
      = Except.error "TypeError: NoneType object is not iterable" := rfl

/-- Binding a succeeded `Except` computation runs the continuation. -/
theorem except_bind_ok {e a b : Type} (x : a) (f : a → Except e b) :
    (Except.ok x >>= f : Except e b) = f x := rfl

/-- String-field validation succeeds exactly on strings. -/
theorem asStr_ok (v : JsonVal) (h : strOk v = true) : ∃ s, asStr v = Except.ok s := by
  cases v with
  | str s => exact ⟨s, rfl⟩
  | null => exact absurd h (by simp [strOk])
  | bool b => exact absurd h (by simp [strOk])
  | num lex => exact absurd h (by simp [strOk])
  | arr es => exact absurd h (by simp [strOk])
  | obj kvs => exact absurd h (by simp [strOk])

/-- Optional-string-field validation succeeds on strings and null. -/
theorem asOptStr_ok (v : JsonVal) (h : optStrOk v = true) :
    ∃ o, asOptStr v = Except.ok o := by
  cases v with
  | str s => exact ⟨some s, rfl⟩
  | null => exact ⟨none, rfl⟩
  | bool b => exact absurd h (by simp [optStrOk])
  | num lex => exact absurd h (by simp [optStrOk])
  | arr es => exact absurd h (by simp [optStrOk])
  | obj kvs => exact absurd h (by simp [optStrOk])

/-- String-list validation succeeds when every element is a string. -/
theorem asStrList_ok (l : List JsonVal) (h : l.all strOk = true) :
    ∃ r, asStrList l = Except.ok r := by
  induction l with
  | nil => exact ⟨[], rfl⟩
  | cons a l ih =>
      simp only [List.all_cons, Bool.and_eq_true] at h
      obtain ⟨s, hs⟩ := asStr_ok a h.1
      obtain ⟨r, hr⟩ := ih h.2
      refine ⟨s :: r, ?_⟩
      simp only [asStrList, List.mapM_cons, hs]
      simp only [asStrList] at hr
      rw [hr]
      rfl

/-- The location parse succeeds on every well-typed dictionary. -/
theorem buildLocation_ok (data : List (String × JsonVal)) (h : locationWF data = true) :
    ∃ v, buildLocation data = Except.ok v := by
  unfold buildLocation
  unfold locationWF at h
  cases hg : getOpt data "location" with
  | none => exact ⟨none, rfl⟩
  | some v =>
      rw [hg] at h
      cases v with
      | obj kvs =>
          by_cases ht : pyTruthy (JsonVal.obj kvs) = true
          · simp only [ht, if_pos] at h ⊢
            simp only [guardedDictOk, Bool.and_eq_true] at h
            obtain ⟨s1, hs1⟩ := asStr_ok _ h.1.1
            obtain ⟨s2, hs2⟩ := asStr_ok _ h.1.2
            obtain ⟨o3, hs3⟩ := asOptStr_ok _ h.2
            refine ⟨some ⟨s1, s2, o3⟩, ?_⟩
            simp only [hs1, hs2, hs3, except_bind_ok]
            rfl
          · exact ⟨none, by simp [ht]⟩
      | null => exact ⟨none, rfl⟩
      | bool b => exact ⟨none, by cases b <;> rfl⟩
      | num lex =>
          exact ⟨none, by by_cases hn : pyTruthy (JsonVal.num lex) = true <;> simp [hn]⟩
      | str s =>
          exact ⟨none, by by_cases hs : pyTruthy (JsonVal.str s) = true <;> simp [hs]⟩
      | arr es =>
          exact ⟨none, by by_cases ha : pyTruthy (JsonVal.arr es) = true <;> simp [ha]⟩

/-- The era parse succeeds on every well-typed dictionary. -/
theorem buildEra_ok (data : List (String × JsonVal)) (h : eraWF data = true) :
    ∃ v, buildEra data = Except.ok v := by
  unfold buildEra
  unfold eraWF at h
  cases hg : getOpt data "era" with
  | none => exact ⟨none, rfl⟩
  | some v =>
      rw [hg] at h
      cases v with
      | obj kvs =>
          by_cases ht : pyTruthy (JsonVal.obj kvs) = true
          · simp only [ht, if_pos] at h ⊢
            simp only [guardedDictOk, Bool.and_eq_true] at h
            obtain ⟨s1, hs1⟩ := asStr_ok _ h.1.1
            obtain ⟨s2, hs2⟩ := asStr_ok _ h.1.2
            obtain ⟨o3, hs3⟩ := asOptStr_ok _ h.2
            refine ⟨some ⟨s1, s2, o3⟩, ?_⟩
            simp only [hs1, hs2, hs3, except_bind_ok]
            rfl
          · exact ⟨none, by simp [ht]⟩
      | null => exact ⟨none, rfl⟩
      | bool b => exact ⟨none, by cases b <;> rfl⟩
      | num lex =>
          exact ⟨none, by by_cases hn : pyTruthy (JsonVal.num lex) = true <;> simp [hn]⟩
      | str s =>
          exact ⟨none, by by_cases hs : pyTruthy (JsonVal.str s) = true <;> simp [hs]⟩
      | arr es =>
          exact ⟨none, by by_cases ha : pyTruthy (JsonVal.arr es) = true <;> simp [ha]⟩

/-- Converting one well-typed dict entry of `people` succeeds. -/
theorem buildPerson_ok (kvs : List (String × JsonVal))
    (h : personEntryOk (JsonVal.obj kvs) = true) :
    ∃ p, buildPerson kvs = Except.ok p := by
  simp only [personEntryOk, Bool.and_eq_true] at h
  obtain ⟨s1, hs1⟩ := asStr_ok _ h.1.1
  obtain ⟨o2, hs2⟩ := asOptStr_ok _ h.1.2
  obtain ⟨o3, hs3⟩ := asOptStr_ok _ h.2
  refine ⟨⟨s1, o2, o3⟩, ?_⟩
  unfold buildPerson
  simp only [hs1, hs2, hs3, except_bind_ok]
  rfl

/-- The `people` loop succeeds when every entry is well-typed. -/
theorem buildPeopleLoop_ok (items : List JsonVal)
    (h : items.all personEntryOk = true) :
    ∃ ps, buildPeopleLoop items = Except.ok ps := by
  induction items with
  | nil => exact ⟨[], rfl⟩
  | cons v rest ih =>
      simp only [List.all_cons, Bool.and_eq_true] at h
      obtain ⟨ps, hps⟩ := ih h.2
      cases v with
      | obj kvs =>
          obtain ⟨p, hp⟩ := buildPerson_ok kvs h.1
          refine ⟨p :: ps, ?_⟩
          simp only [buildPeopleLoop, hp, hps, except_bind_ok]
          rfl
      | null => exact ⟨ps, hps⟩
      | bool b => exact ⟨ps, hps⟩
      | num lex => exact ⟨ps, hps⟩
      | str s => exact ⟨ps, hps⟩
      | arr es => exact ⟨ps, hps⟩

/-- The `people` parse succeeds on every well-typed dictionary. -/
theorem buildPeople_ok (data : List (String × JsonVal)) (h : peopleWF data = true) :
    ∃ ps, buildPeople data = Except.ok ps := by
  unfold buildPeople
  unfold peopleWF at h
  cases hi : pyIter (getD data "people" (JsonVal.arr [])) with
  | error e => rw [hi] at h; exact absurd h (by simp)
  | ok items =>
      rw [hi] at h
      obtain ⟨ps, hps⟩ := buildPeopleLoop_ok items h
      exact ⟨ps, by simp only [hi, except_bind_ok, hps]⟩

/-- Every string the objects flattening produces from a dict value
passes validation. -/
theorem flattenDict_all_strOk (kvs : List (String × JsonVal)) :
    (flattenDictLoop kvs).all strOk = true := by
  induction kvs with
  | nil => rfl
  | cons kv rest ih =>
      obtain ⟨k, v⟩ := kv
      simp only [flattenDictLoop, List.all_append, Bool.and_eq_true]
      refine ⟨?_, ih⟩
      cases v <;> simp [List.all_map, Function.comp_def, strOk]

/-- The raw objects list is all strings on a well-typed dictionary. -/
theorem buildObjectsRaw_all_strOk (data : List (String × JsonVal))
    (h : objectsWF data = true) : (buildObjectsRaw data).all strOk = true := by
  unfold buildObjectsRaw
  unfold objectsWF at h
  cases hg : getD data "objects" (JsonVal.arr []) with
  | arr l =>
      rw [hg] at h
      rw [List.all_map]
      rw [List.all_eq_true] at h ⊢
      intro o ho
      have he := h o ho
      cases o with
      | obj okvs => simpa [objElemOk] using he
      | null => rfl
      | bool b => rfl
      | num lex => rfl
      | str s => rfl
      | arr es => rfl
  | obj kvs => exact flattenDict_all_strOk kvs
  | null => rfl
  | bool b => rfl
  | num lex => rfl
  | str s => rfl

/-- C3 as amended: the Record Builder never raises on a dictionary whose
`people` value is iterable with well-typed dict entries and whose
string-typed field positions hold strings — in particular it tolerates
every documented shape drift (non-dict location/era, dict-valued
categories/colors/objects, non-dict people entries).  It can raise on a
non-iterable `people` value (TypeError) or on a non-string value in a
string-typed field (ValidationError). -/
theorem build_analysis_wellFormed_ok (filename : String) (data : List (String × JsonVal))
    (raw : String) (h : wellFormed data = true) :
    (build_analysis filename data raw).isOk = true := by
  simp only [wellFormed, Bool.and_eq_true, strListWF] at h
  obtain ⟨⟨⟨⟨⟨⟨⟨hloc, hppl⟩, hera⟩, hobj⟩, hdesc⟩, hmood⟩, hcat⟩, hcol⟩ := h
  obtain ⟨loc, hl⟩ := buildLocation_ok data hloc
  obtain ⟨ppl, hp⟩ := buildPeople_ok data hppl
  obtain ⟨era, he⟩ := buildEra_ok data hera
  obtain ⟨desc, hd⟩ := asStr_ok _ hdesc
  obtain ⟨mood, hm⟩ := asOptStr_ok _ hmood
  obtain ⟨cats, hc⟩ := asStrList_ok _ hcat
  obtain ⟨cols, hco⟩ := asStrList_ok _ hcol
  obtain ⟨objs, hob⟩ := asStrList_ok _ (buildObjectsRaw_all_strOk data hobj)
  unfold build_analysis
  simp only [hl, hp, he, hd, hm, hc, hco, hob, except_bind_ok]
  rfl

/-- Witness for C3's amended theorem on a dictionary exercising every
tolerated drift shape. -/
theorem build_analysis_wellFormed_ok_witness :
    wellFormed
        [("people", JsonVal.str "xy"), ("location", JsonVal.num "5"),
         ("categories", JsonVal.obj [("a", JsonVal.str "x")]),
         ("objects", JsonVal.obj [("b", JsonVal.arr [JsonVal.num "1"])]),
         ("era", JsonVal.arr [JsonVal.str "q"]), ("colors", JsonVal.num "3")] = true
    ∧ (build_analysis "f.jpg"
        [("people", JsonVal.str "xy"), ("location", JsonVal.num "5"),
         ("categories", JsonVal.obj [("a", JsonVal.str "x")]),
         ("objects", JsonVal.obj [("b", JsonVal.arr [JsonVal.num "1"])]),
         ("era", JsonVal.arr [JsonVal.str "q"]), ("colors", JsonVal.num "3")] "raw").isOk
      = true :=
  ⟨rfl, build_analysis_wellFormed_ok "f.jpg" _ "raw" rfl⟩
